import Mathlib

/-!
Verification development for the digital-wallet ledger engine.

The definitions below are a shallow embedding of the ledger engine of the
repository: the wallet service (internal/service, string-keyed variant) and
the wallet repository (internal/repository/wallet.go).  Wallet and
Transaction mirror the persisted schema in migrations/ddl
(surrogate integer primary key, string user_id / subject_wallet_id /
object_wallet_id, bigint balances and amounts in cents).  Timestamps are
modelled by the insertion sequence number: each inserted transaction row
receives the next serial value as both its id and its creation time, which
preserves the chronological order that ORDER BY created_at relies on.

The gorm transaction (BeginTransaction / Rollback / Commit) is modelled by
explicit state passing: each operation threads a candidate database through
the steps of its atomic unit and returns the original database whenever any
step fails, exactly as a rolled-back transaction discards all writes.
Storage failures at the individual steps of the atomic unit are modelled by
a FaultSpec of injected failures.  Row-lock acquisitions are recorded as the
ordered list of wallet primary keys passed to UpdateWalletBalance, whose
SELECT ... FOR UPDATE takes the exclusive row lock.
-/

namespace DigitalWallet

/-- Account type of a wallet row (model.AcntType; wallets.acnt_type). -/
inductive AcntType where
  | user
  | provider
  deriving DecidableEq

/-- Wallet status (model.Status; wallets.status). -/
inductive WStatus where
  | active
  | inactive
  | suspended
  deriving DecidableEq

/-- Transaction type (model.TransactionType). -/
inductive TxnType where
  | deposit
  | withdraw
  | transfer
  deriving DecidableEq

/-- Operation type of a ledger entry (model.OperationType). -/
inductive OpType where
  | debit
  | credit
  deriving DecidableEq

/-- Transaction status (model.TransactionStatus). -/
inductive TxnStatus where
  | pending
  | completed
  | failed
  | cancelled
  deriving DecidableEq

/-- A wallet row (model.Wallet over the wallets table): surrogate key id,
unique user_id string, account type, balance in cents, status. -/
structure Wallet where
  id : Nat
  userId : String
  acntType : AcntType
  balance : Int
  status : WStatus
  deriving DecidableEq

/-- A posted ledger entry (model.Transaction over the transactions table).
createdAt is the insertion sequence number standing for the row's
creation timestamp. -/
structure Transaction where
  id : Nat
  subjectWalletId : String
  objectWalletId : String
  transactionType : TxnType
  operationType : OpType
  amount : Int
  status : TxnStatus
  createdAt : Nat
  deriving DecidableEq

/-- Typed failures surfaced by the engine: invalid amount, model.ErrNotFound,
the two provider-not-found errors built in Deposit and Withdraw,
model.ErrInsufficientFunds, an underlying storage failure, and the
self-transfer rejection issued by the HTTP controller. -/
inductive Err where
  | invalidAmount
  | notFound
  | depositProviderNotFound
  | withdrawProviderNotFound
  | insufficientFunds
  | persistence
  | selfTransfer
  deriving DecidableEq

/-- The persistent state: the wallets table, the transactions table in
insertion order, and the next serial value for transaction rows. -/
structure DB where
  wallets : List Wallet
  transactions : List Transaction
  nextTxnId : Nat
  deriving DecidableEq

/-- repository.FindByUserID: first wallet row with the given user_id,
model.ErrNotFound when absent. -/
def findByUserID (db : DB) (userID : String) : Except Err Wallet :=
  match db.wallets.find? (fun w => w.userId == userID) with
  | none => .error .notFound
  | some w => .ok w

/-- repository.FindProviderWallet: first wallet row with the given user_id
and acnt_type provider, model.ErrNotFound when absent. -/
def findProviderWallet (db : DB) (providerID : String) : Except Err Wallet :=
  match db.wallets.find? (fun w => w.userId == providerID && w.acntType == AcntType.provider) with
  | none => .error .notFound
  | some w => .ok w

/-- repository.InsertTransaction: append the row, assigning the serial id
and the creation timestamp; returns the stored row (gorm fills the
struct's ID on Create). -/
def insertTransaction (db : DB) (t : Transaction) : DB × Transaction :=
  let t' := { t with id := db.nextTxnId, createdAt := db.nextTxnId }
  ({ db with transactions := db.transactions ++ [t'], nextTxnId := db.nextTxnId + 1 }, t')

/-- tx.Save(&wallet): write the wallet row with primary key w.id back. -/
def saveWallet (db : DB) (w : Wallet) : DB :=
  { db with wallets := db.wallets.map (fun x => if x.id == w.id then w else x) }

/-- repository.UpdateWalletBalance: lock and read the wallet row by primary
key, add the amount on credit, subtract on debit rejecting a negative
result with model.ErrInsufficientFunds, then save.  The fault flag injects
a storage failure (lock timeout, connectivity) at this step. -/
def updateWalletBalance (fault : Bool) (db : DB) (walletID : Nat) (amount : Int)
    (isCredit : Bool) : Except Err DB :=
  if fault then .error .persistence
  else
    match db.wallets.find? (fun w => w.id == walletID) with
    | none => .error .notFound
    | some w =>
      if isCredit then .ok (saveWallet db { w with balance := w.balance + amount })
      else
        let nb := w.balance - amount
        if nb < 0 then .error .insufficientFunds
        else .ok (saveWallet db { w with balance := nb })

/-- The comparison realising ORDER BY created_at DESC: an entry precedes
another when its creation time is at least the other's. -/
def newestFirst (x y : Transaction) : Prop := y.createdAt ≤ x.createdAt

instance : DecidableRel newestFirst := fun x y => Nat.decLe y.createdAt x.createdAt

instance : IsTotal Transaction newestFirst := ⟨fun a b => Nat.le_total b.createdAt a.createdAt⟩

instance : IsTrans Transaction newestFirst := ⟨fun _ _ _ h1 h2 => Nat.le_trans h2 h1⟩

/-- repository.FindAllTransactions instantiated at the only query the
service issues: rows with subject_wallet_id equal to the given id,
ORDER BY created_at DESC. -/
def findAllTransactionsBySubject (db : DB) (subjectID : String) : List Transaction :=
  List.insertionSort newestFirst
    (db.transactions.filter (fun t => t.subjectWalletId == subjectID))

/-- Injected storage failures for the steps of one atomic unit: beginning
the transaction, the two entry inserts, the two balance updates, and the
final commit. -/
structure FaultSpec where
  failBegin : Bool
  failInsert1 : Bool
  failInsert2 : Bool
  failUpd1 : Bool
  failUpd2 : Bool
  failCommit : Bool
  deriving DecidableEq

/-- The fault-free execution environment. -/
def noFaults : FaultSpec := ⟨false, false, false, false, false, false⟩

instance exceptDecEq {ε α : Type} [DecidableEq ε] [DecidableEq α] :
    DecidableEq (Except ε α) := fun a b =>
  match a, b with
  | .error e, .error f =>
    if h : e = f then isTrue (by rw [h]) else isFalse (fun c => h (Except.error.inj c))
  | .ok x, .ok y =>
    if h : x = y then isTrue (by rw [h]) else isFalse (fun c => h (Except.ok.inj c))
  | .error e, .ok y => isFalse (fun c => Except.noConfusion c)
  | .ok x, .error f => isFalse (fun c => Except.noConfusion c)

/-- Outcome of one engine operation: the committed database (the input
database when the operation failed and rolled back), the ordered wallet
primary keys on which row locks were requested, and the returned entry or
typed failure. -/
structure OpResult where
  db : DB
  locks : List Nat
  out : Except Err Transaction
  deriving DecidableEq

/-- service.Deposit: validate the amount, locate the target wallet and the
provider wallet (defaulting to deposit-provider-master), then atomically
insert a debit entry against the provider and a credit entry against the
target, debit the provider balance and credit the target balance, and
commit, returning the credit entry.  Any failure rolls the unit back. -/
def depositWith (f : FaultSpec) (db : DB) (userID : String) (amount : Int)
    (providerID : Option String) : OpResult :=
  if amount ≤ 0 then ⟨db, [], .error .invalidAmount⟩
  else
    match findByUserID db userID with
    | .error e => ⟨db, [], .error e⟩
    | .ok userWallet =>
      match findProviderWallet db (providerID.getD "deposit-provider-master") with
      | .error _ => ⟨db, [], .error .depositProviderNotFound⟩
      | .ok providerWallet =>
        if f.failBegin then ⟨db, [], .error .persistence⟩
        else if f.failInsert1 then ⟨db, [], .error .persistence⟩
        else
          let r1 := insertTransaction db
            ⟨0, providerWallet.userId, userWallet.userId, .deposit, .debit, amount, .completed, 0⟩
          if f.failInsert2 then ⟨db, [], .error .persistence⟩
          else
            let r2 := insertTransaction r1.1
              ⟨0, userWallet.userId, providerWallet.userId, .deposit, .credit, amount, .completed, 0⟩
            match updateWalletBalance f.failUpd1 r2.1 providerWallet.id amount false with
            | .error e => ⟨db, [providerWallet.id], .error e⟩
            | .ok tx3 =>
              match updateWalletBalance f.failUpd2 tx3 userWallet.id amount true with
              | .error e => ⟨db, [providerWallet.id, userWallet.id], .error e⟩
              | .ok tx4 =>
                if f.failCommit then ⟨db, [providerWallet.id, userWallet.id], .error .persistence⟩
                else ⟨tx4, [providerWallet.id, userWallet.id], .ok r2.2⟩

/-- service.Withdraw: validate the amount, locate the target wallet, reject
an insufficient balance before any further work, locate the provider
wallet (defaulting to withdraw-provider-master), then atomically insert a
debit entry against the target and a credit entry against the provider,
debit the target balance and credit the provider balance, and commit,
returning the debit entry. -/
def withdrawWith (f : FaultSpec) (db : DB) (userID : String) (amount : Int)
    (providerID : Option String) : OpResult :=
  if amount ≤ 0 then ⟨db, [], .error .invalidAmount⟩
  else
    match findByUserID db userID with
    | .error e => ⟨db, [], .error e⟩
    | .ok userWallet =>
      if userWallet.balance < amount then ⟨db, [], .error .insufficientFunds⟩
      else
        match findProviderWallet db (providerID.getD "withdraw-provider-master") with
        | .error _ => ⟨db, [], .error .withdrawProviderNotFound⟩
        | .ok providerWallet =>
          if f.failBegin then ⟨db, [], .error .persistence⟩
          else if f.failInsert1 then ⟨db, [], .error .persistence⟩
          else
            let r1 := insertTransaction db
              ⟨0, userWallet.userId, providerWallet.userId, .withdraw, .debit, amount, .completed, 0⟩
            if f.failInsert2 then ⟨db, [], .error .persistence⟩
            else
              let r2 := insertTransaction r1.1
                ⟨0, providerWallet.userId, userWallet.userId, .withdraw, .credit, amount, .completed, 0⟩
              match updateWalletBalance f.failUpd1 r2.1 userWallet.id amount false with
              | .error e => ⟨db, [userWallet.id], .error e⟩
              | .ok tx3 =>
                match updateWalletBalance f.failUpd2 tx3 providerWallet.id amount true with
                | .error e => ⟨db, [userWallet.id, providerWallet.id], .error e⟩
                | .ok tx4 =>
                  if f.failCommit then ⟨db, [userWallet.id, providerWallet.id], .error .persistence⟩
                  else ⟨tx4, [userWallet.id, providerWallet.id], .ok r1.2⟩

/-- service.Transfer: validate the amount, locate the sender, reject an
insufficient sender balance, locate the receiver, then atomically insert a
debit entry against the sender and a credit entry against the receiver,
debit the sender balance and credit the receiver balance, and commit,
returning the debit entry. -/
def transferWith (f : FaultSpec) (db : DB) (fromUserID toUserID : String)
    (amount : Int) : OpResult :=
  if amount ≤ 0 then ⟨db, [], .error .invalidAmount⟩
  else
    match findByUserID db fromUserID with
    | .error e => ⟨db, [], .error e⟩
    | .ok fromWallet =>
      if fromWallet.balance < amount then ⟨db, [], .error .insufficientFunds⟩
      else
        match findByUserID db toUserID with
        | .error e => ⟨db, [], .error e⟩
        | .ok toWallet =>
          if f.failBegin then ⟨db, [], .error .persistence⟩
          else if f.failInsert1 then ⟨db, [], .error .persistence⟩
          else
            let r1 := insertTransaction db
              ⟨0, fromWallet.userId, toWallet.userId, .transfer, .debit, amount, .completed, 0⟩
            if f.failInsert2 then ⟨db, [], .error .persistence⟩
            else
              let r2 := insertTransaction r1.1
                ⟨0, toWallet.userId, fromWallet.userId, .transfer, .credit, amount, .completed, 0⟩
              match updateWalletBalance f.failUpd1 r2.1 fromWallet.id amount false with
              | .error e => ⟨db, [fromWallet.id], .error e⟩
              | .ok tx3 =>
                match updateWalletBalance f.failUpd2 tx3 toWallet.id amount true with
                | .error e => ⟨db, [fromWallet.id, toWallet.id], .error e⟩
                | .ok tx4 =>
                  if f.failCommit then ⟨db, [fromWallet.id, toWallet.id], .error .persistence⟩
                  else ⟨tx4, [fromWallet.id, toWallet.id], .ok r1.2⟩

/-- controller.Transfer guard (internal/controller/wallet.go): a request
with equal sender and receiver ids is rejected before the service is
invoked. -/
def controllerTransfer (db : DB) (fromUserID toUserID : String) (amount : Int) : OpResult :=
  if fromUserID == toUserID then ⟨db, [], .error .selfTransfer⟩
  else transferWith noFaults db fromUserID toUserID amount

/-- service.GetWalletWithTransactions: locate the wallet, then read the
entries recorded against its user id, newest first.  The read path issues
no writes, so the database component of the result is the input state. -/
def getWalletWithTransactions (db : DB) (userID : String) :
    DB × Except Err (Wallet × List Transaction) :=
  match findByUserID db userID with
  | .error e => (db, .error e)
  | .ok w => (db, .ok (w, findAllTransactionsBySubject db w.userId))

/-- One ledger-engine mutation request. -/
inductive Op where
  | deposit (userID : String) (amount : Int) (providerID : Option String)
  | withdraw (userID : String) (amount : Int) (providerID : Option String)
  | transfer (fromUserID toUserID : String) (amount : Int)
  deriving DecidableEq

/-- Dispatch one operation under an injected-failure environment. -/
def exec (op : Op) (f : FaultSpec) (db : DB) : OpResult :=
  match op with
  | .deposit u a p => depositWith f db u a p
  | .withdraw u a p => withdrawWith f db u a p
  | .transfer fu tu a => transferWith f db fu tu a

/-- Run a sequence of operations, each under its own failure environment,
keeping the committed state after every step. -/
def execSeq : List (Op × FaultSpec) → DB → DB
  | [], db => db
  | (op, f) :: rest, db => execSeq rest (exec op f db).db

/-- Every wallet balance is non-negative. -/
@[reducible] def NonNeg (db : DB) : Prop := ∀ w ∈ db.wallets, 0 ≤ w.balance

/-- Total of all wallet balances. -/
def balSum (l : List Wallet) : Int := (l.map (fun w => w.balance)).sum

/-- The wallets table has pairwise distinct primary keys (SERIAL PRIMARY
KEY in migrations/ddl). -/
@[reducible] def WFids (db : DB) : Prop := (db.wallets.map (fun w => w.id)).Nodup

/-! ### Helper lemmas about row lookup and row update -/

theorem find?_eq_of_mem_nodup {l : List Wallet} {w : Wallet}
    (hmem : w ∈ l) (hnd : (l.map (fun x => x.id)).Nodup) :
    l.find? (fun x => x.id == w.id) = some w := by
  induction l with
  | nil => cases hmem
  | cons a t ih =>
    rw [List.map_cons, List.nodup_cons] at hnd
    rcases List.mem_cons.mp hmem with rfl | hmt
    · rw [List.find?_cons_of_pos _ (by simp)]
    · have hne : a.id ≠ w.id := by
        intro hEq
        exact hnd.1 (hEq ▸ List.mem_map_of_mem (fun x => x.id) hmt)
      rw [List.find?_cons_of_neg _ (by simp [hne])]
      exact ih hmt hnd.2

theorem find?_save_preserved {l : List Wallet} {w' : Wallet} {j : Nat} (hne : w'.id ≠ j) :
    (l.map (fun x => if x.id == w'.id then w' else x)).find? (fun x => x.id == j) =
      l.find? (fun x => x.id == j) := by
  induction l with
  | nil => rfl
  | cons a t ih =>
    rw [List.map_cons]
    by_cases hA : a.id = w'.id
    · rw [if_pos (by simp [hA]), List.find?_cons_of_neg _ (by simp [hne]),
        List.find?_cons_of_neg _ (by simp [hA, hne])]
      exact ih
    · rw [if_neg (by simp [hA])]
      by_cases hAj : a.id = j
      · rw [List.find?_cons_of_pos _ (by simp [hAj]), List.find?_cons_of_pos _ (by simp [hAj])]
      · rw [List.find?_cons_of_neg _ (by simp [hAj]), List.find?_cons_of_neg _ (by simp [hAj])]
        exact ih

theorem find?_save_self (w' : Wallet) {l : List Wallet} {w : Wallet}
    (hfind : l.find? (fun x => x.id == w'.id) = some w) :
    (l.map (fun x => if x.id == w'.id then w' else x)).find? (fun x => x.id == w'.id) =
      some w' := by
  induction l with
  | nil => cases hfind
  | cons a t ih =>
    rw [List.map_cons]
    by_cases hA : a.id = w'.id
    · rw [if_pos (by simp [hA]), List.find?_cons_of_pos _ (by simp)]
    · rw [List.find?_cons_of_neg _ (by simp [hA])] at hfind
      rw [if_neg (by simp [hA]), List.find?_cons_of_neg _ (by simp [hA])]
      exact ih hfind

theorem ids_save (l : List Wallet) (w' : Wallet) :
    (l.map (fun x => if x.id == w'.id then w' else x)).map (fun x => x.id) =
      l.map (fun x => x.id) := by
  rw [List.map_map]
  refine List.map_congr_left (fun a _ => ?_)
  by_cases hA : a.id = w'.id
  · simp [hA]
  · simp [hA]

theorem balSum_cons (a : Wallet) (t : List Wallet) :
    balSum (a :: t) = a.balance + balSum t := by
  simp [balSum]

theorem balSum_save {l : List Wallet} {w w' : Wallet}
    (hnd : (l.map (fun x => x.id)).Nodup)
    (hfind : l.find? (fun x => x.id == w'.id) = some w) :
    balSum (l.map (fun x => if x.id == w'.id then w' else x)) =
      balSum l - w.balance + w'.balance := by
  induction l with
  | nil => cases hfind
  | cons a t ih =>
    rw [List.map_cons, List.nodup_cons] at hnd
    rw [List.map_cons]
    by_cases hA : a.id = w'.id
    · rw [List.find?_cons_of_pos _ (by simp [hA])] at hfind
      rw [if_pos (by simp [hA])]
      have haw : a = w := by injection hfind
      have htid : t.map (fun x => if x.id == w'.id then w' else x) = t := by
        refine (List.map_congr_left (fun x hx => ?_)).trans (List.map_id t)
        have : x.id ≠ a.id := by
          intro hEq
          exact hnd.1 (hEq ▸ List.mem_map_of_mem (fun y => y.id) hx)
        rw [if_neg (by simp [hA ▸ this])]
        rfl
      rw [htid, balSum_cons, balSum_cons, haw]
      omega
    · rw [List.find?_cons_of_neg _ (by simp [hA])] at hfind
      rw [if_neg (by simp [hA]), balSum_cons, balSum_cons, ih hnd.2 hfind]
      omega

theorem updateWalletBalance_ok {fb : Bool} {db : DB} {i : Nat} {a : Int} {c : Bool} {db' : DB}
    (h : updateWalletBalance fb db i a c = .ok db') :
    ∃ w, db.wallets.find? (fun x => x.id == i) = some w ∧ w.id = i ∧
      db' = saveWallet db { w with balance := if c then w.balance + a else w.balance - a } ∧
      (c = false → 0 ≤ w.balance - a) := by
  simp only [updateWalletBalance] at h
  split at h
  · cases h
  split at h
  · cases h
  rename_i w hw
  refine ⟨w, hw, by simpa using List.find?_some hw, ?_⟩
  cases c with
  | true =>
    simp only [if_pos rfl] at h ⊢
    injection h with h
    exact ⟨h.symm, fun hc => by cases hc⟩
  | false =>
    have hft : ¬(false = true) := by simp
    simp only [if_neg hft] at h ⊢
    split at h
    · cases h
    · rename_i hnb
      injection h with h
      exact ⟨h.symm, fun _ => by omega⟩

theorem saveWallet_transactions (db : DB) (w : Wallet) :
    (saveWallet db w).transactions = db.transactions := rfl

theorem saveWallet_nextTxnId (db : DB) (w : Wallet) :
    (saveWallet db w).nextTxnId = db.nextTxnId := rfl

theorem nonNeg_save {db : DB} {w : Wallet} (h : NonNeg db) (hw : 0 ≤ w.balance) :
    NonNeg (saveWallet db w) := by
  intro x hx
  rcases List.mem_map.mp hx with ⟨y, hy, hxy⟩
  by_cases hA : y.id = w.id
  · rw [if_pos (by simp [hA])] at hxy
    exact hxy ▸ hw
  · rw [if_neg (by simp [hA])] at hxy
    exact hxy ▸ h y hy

theorem updateWalletBalance_nonneg {fb : Bool} {db : DB} {i : Nat} {a : Int} {c : Bool}
    {db' : DB} (h : updateWalletBalance fb db i a c = .ok db')
    (hnn : NonNeg db) (ha : 0 ≤ a) : NonNeg db' := by
  obtain ⟨w, hw, _, rfl, hnb⟩ := updateWalletBalance_ok h
  cases c with
  | false =>
    refine nonNeg_save hnn ?_
    simpa using hnb rfl
  | true =>
    refine nonNeg_save hnn ?_
    have := hnn w (List.mem_of_find?_eq_some hw)
    simp only [if_true]
    omega

/-! ### Inversion lemmas for the three atomic operations -/

theorem depositWith_rollback {f : FaultSpec} {db : DB} {u : String} {a : Int}
    {p : Option String} {db' : DB} {l : List Nat} {e : Err}
    (h : depositWith f db u a p = ⟨db', l, .error e⟩) : db' = db := by
  simp only [depositWith, insertTransaction] at h
  repeat' split at h
  all_goals
    first
    | exact (congrArg OpResult.db h).symm
    | exact Except.noConfusion (congrArg OpResult.out h)

theorem withdrawWith_rollback {f : FaultSpec} {db : DB} {u : String} {a : Int}
    {p : Option String} {db' : DB} {l : List Nat} {e : Err}
    (h : withdrawWith f db u a p = ⟨db', l, .error e⟩) : db' = db := by
  simp only [withdrawWith, insertTransaction] at h
  repeat' split at h
  all_goals
    first
    | exact (congrArg OpResult.db h).symm
    | exact Except.noConfusion (congrArg OpResult.out h)

theorem transferWith_rollback {f : FaultSpec} {db : DB} {fu tu : String} {a : Int}
    {db' : DB} {l : List Nat} {e : Err}
    (h : transferWith f db fu tu a = ⟨db', l, .error e⟩) : db' = db := by
  simp only [transferWith, insertTransaction] at h
  repeat' split at h
  all_goals
    first
    | exact (congrArg OpResult.db h).symm
    | exact Except.noConfusion (congrArg OpResult.out h)

theorem depositWith_ok {f : FaultSpec} {db : DB} {u : String} {a : Int} {p : Option String}
    {db' : DB} {l : List Nat} {t : Transaction}
    (h : depositWith f db u a p = ⟨db', l, .ok t⟩) :
    ∃ uw pw tx3,
      0 < a ∧
      findByUserID db u = .ok uw ∧
      findProviderWallet db (p.getD "deposit-provider-master") = .ok pw ∧
      l = [pw.id, uw.id] ∧
      t = ⟨db.nextTxnId + 1, uw.userId, pw.userId, .deposit, .credit, a, .completed,
        db.nextTxnId + 1⟩ ∧
      updateWalletBalance f.failUpd1
        ⟨db.wallets,
          db.transactions ++
            [⟨db.nextTxnId, pw.userId, uw.userId, .deposit, .debit, a, .completed, db.nextTxnId⟩,
             ⟨db.nextTxnId + 1, uw.userId, pw.userId, .deposit, .credit, a, .completed,
               db.nextTxnId + 1⟩],
          db.nextTxnId + 2⟩ pw.id a false = .ok tx3 ∧
      updateWalletBalance f.failUpd2 tx3 uw.id a true = .ok db' := by
  simp only [depositWith, insertTransaction, List.append_assoc, List.singleton_append] at h
  repeat' split at h
  all_goals try exact Except.noConfusion (congrArg OpResult.out h)
  rename_i ha x1 uw hu x2 pw hp hfb hi1 hi2 x3 tx3 hupd1 x4 tx4 hupd2 hc
  have hdb : tx4 = db' := congrArg OpResult.db h
  have hl : [pw.id, uw.id] = l := congrArg OpResult.locks h
  have ht : (⟨db.nextTxnId + 1, uw.userId, pw.userId, .deposit, .credit, a, .completed,
      db.nextTxnId + 1⟩ : Transaction) = t := Except.ok.inj (congrArg OpResult.out h)
  refine ⟨uw, pw, tx3, by omega, hu, hp, hl.symm, ht.symm, hupd1, hdb ▸ hupd2⟩

theorem withdrawWith_ok {f : FaultSpec} {db : DB} {u : String} {a : Int} {p : Option String}
    {db' : DB} {l : List Nat} {t : Transaction}
    (h : withdrawWith f db u a p = ⟨db', l, .ok t⟩) :
    ∃ uw pw tx3,
      0 < a ∧
      findByUserID db u = .ok uw ∧
      a ≤ uw.balance ∧
      findProviderWallet db (p.getD "withdraw-provider-master") = .ok pw ∧
      l = [uw.id, pw.id] ∧
      t = ⟨db.nextTxnId, uw.userId, pw.userId, .withdraw, .debit, a, .completed, db.nextTxnId⟩ ∧
      updateWalletBalance f.failUpd1
        ⟨db.wallets,
          db.transactions ++
            [⟨db.nextTxnId, uw.userId, pw.userId, .withdraw, .debit, a, .completed, db.nextTxnId⟩,
             ⟨db.nextTxnId + 1, pw.userId, uw.userId, .withdraw, .credit, a, .completed,
               db.nextTxnId + 1⟩],
          db.nextTxnId + 2⟩ uw.id a false = .ok tx3 ∧
      updateWalletBalance f.failUpd2 tx3 pw.id a true = .ok db' := by
  simp only [withdrawWith, insertTransaction, List.append_assoc, List.singleton_append] at h
  repeat' split at h
  all_goals try exact Except.noConfusion (congrArg OpResult.out h)
  rename_i ha x1 uw hu hbal x2 pw hp hfb hi1 hi2 x3 tx3 hupd1 x4 tx4 hupd2 hc
  have hdb : tx4 = db' := congrArg OpResult.db h
  have hl : [uw.id, pw.id] = l := congrArg OpResult.locks h
  have ht : (⟨db.nextTxnId, uw.userId, pw.userId, .withdraw, .debit, a, .completed,
      db.nextTxnId⟩ : Transaction) = t := Except.ok.inj (congrArg OpResult.out h)
  refine ⟨uw, pw, tx3, by omega, hu, by omega, hp, hl.symm, ht.symm, hupd1, hdb ▸ hupd2⟩

theorem transferWith_ok {f : FaultSpec} {db : DB} {fu tu : String} {a : Int}
    {db' : DB} {l : List Nat} {t : Transaction}
    (h : transferWith f db fu tu a = ⟨db', l, .ok t⟩) :
    ∃ fw tw tx3,
      0 < a ∧
      findByUserID db fu = .ok fw ∧
      a ≤ fw.balance ∧
      findByUserID db tu = .ok tw ∧
      l = [fw.id, tw.id] ∧
      t = ⟨db.nextTxnId, fw.userId, tw.userId, .transfer, .debit, a, .completed, db.nextTxnId⟩ ∧
      updateWalletBalance f.failUpd1
        ⟨db.wallets,
          db.transactions ++
            [⟨db.nextTxnId, fw.userId, tw.userId, .transfer, .debit, a, .completed, db.nextTxnId⟩,
             ⟨db.nextTxnId + 1, tw.userId, fw.userId, .transfer, .credit, a, .completed,
               db.nextTxnId + 1⟩],
          db.nextTxnId + 2⟩ fw.id a false = .ok tx3 ∧
      updateWalletBalance f.failUpd2 tx3 tw.id a true = .ok db' := by
  simp only [transferWith, insertTransaction, List.append_assoc, List.singleton_append] at h
  repeat' split at h
  all_goals try exact Except.noConfusion (congrArg OpResult.out h)
  rename_i ha x1 fw hfw hbal x2 tw htw hfb hi1 hi2 x3 tx3 hupd1 x4 tx4 hupd2 hc
  have hdb : tx4 = db' := congrArg OpResult.db h
  have hl : [fw.id, tw.id] = l := congrArg OpResult.locks h
  have ht : (⟨db.nextTxnId, fw.userId, tw.userId, .transfer, .debit, a, .completed,
      db.nextTxnId⟩ : Transaction) = t := Except.ok.inj (congrArg OpResult.out h)
  refine ⟨fw, tw, tx3, by omega, hfw, by omega, htw, hl.symm, ht.symm, hupd1, hdb ▸ hupd2⟩

theorem findByUserID_ok {db : DB} {u : String} {w : Wallet}
    (h : findByUserID db u = .ok w) : w ∈ db.wallets ∧ w.userId = u := by
  unfold findByUserID at h
  split at h
  · cases h
  rename_i w' hw'
  have hww : w' = w := Except.ok.inj h
  subst hww
  exact ⟨List.mem_of_find?_eq_some hw', by simpa using List.find?_some hw'⟩

theorem findProviderWallet_ok {db : DB} {pid : String} {w : Wallet}
    (h : findProviderWallet db pid = .ok w) :
    w ∈ db.wallets ∧ w.userId = pid ∧ w.acntType = .provider := by
  unfold findProviderWallet at h
  split at h
  · cases h
  rename_i w' hw'
  have hww : w' = w := Except.ok.inj h
  subst hww
  have hp := List.find?_some hw'
  simp only [Bool.and_eq_true, beq_iff_eq] at hp
  exact ⟨List.mem_of_find?_eq_some hw', hp.1, hp.2⟩

theorem save_mem_id {l : List Wallet} {w : Wallet} (hmem : w ∈ l)
    (hnd : (l.map (fun x => x.id)).Nodup) :
    l.map (fun x => if x.id == w.id then w else x) = l := by
  refine (List.map_congr_left fun x hx => ?_).trans (List.map_id l)
  by_cases hxe : x.id = w.id
  · have h1 := find?_eq_of_mem_nodup hmem hnd
    have h2 := find?_eq_of_mem_nodup hx hnd
    rw [hxe] at h2
    have hxw : x = w := Option.some.inj (h2.symm.trans h1)
    rw [if_pos (by simp [hxe]), hxw]
    rfl
  · rw [if_neg (by simp [hxe])]
    rfl

theorem updateWalletBalance_ok_balSum {fb : Bool} {db : DB} {i : Nat} {a : Int} {c : Bool}
    {db' : DB} (h : updateWalletBalance fb db i a c = .ok db')
    (hnd : (db.wallets.map (fun x => x.id)).Nodup) :
    db'.transactions = db.transactions ∧ db'.nextTxnId = db.nextTxnId ∧
    db'.wallets.map (fun x => x.id) = db.wallets.map (fun x => x.id) ∧
    balSum db'.wallets = balSum db.wallets + (if c then a else -a) := by
  obtain ⟨w, hfind, hid, rfl, hnb⟩ := updateWalletBalance_ok h
  refine ⟨rfl, rfl, ids_save _ _, ?_⟩
  have hfind' : db.wallets.find?
      (fun x => x.id == ({ w with balance := if c then w.balance + a else w.balance - a } :
        Wallet).id) = some w := by
    show db.wallets.find? (fun x => x.id == w.id) = some w
    rw [hid]
    exact hfind
  have hbs := balSum_save hnd hfind'
  show balSum (db.wallets.map _) = _
  rw [hbs]
  have hproj : ({ w with balance := if c then w.balance + a else w.balance - a } : Wallet).balance
      = if c then w.balance + a else w.balance - a := rfl
  rw [hproj]
  generalize balSum db.wallets = S
  cases c <;> simp <;> omega

theorem nonNeg_exec (op : Op) (f : FaultSpec) {db : DB} (h : NonNeg db) :
    NonNeg (exec op f db).db := by
  cases op with
  | deposit u a p =>
    simp only [exec]
    rcases hr : depositWith f db u a p with ⟨db', l, out⟩
    cases out with
    | error e => exact (depositWith_rollback hr) ▸ h
    | ok t =>
      obtain ⟨uw, pw, tx3, ha, hu, hp, hl, ht, hupd1, hupd2⟩ := depositWith_ok hr
      have h2 : NonNeg tx3 := updateWalletBalance_nonneg hupd1 h (le_of_lt ha)
      exact updateWalletBalance_nonneg hupd2 h2 (le_of_lt ha)
  | withdraw u a p =>
    simp only [exec]
    rcases hr : withdrawWith f db u a p with ⟨db', l, out⟩
    cases out with
    | error e => exact (withdrawWith_rollback hr) ▸ h
    | ok t =>
      obtain ⟨uw, pw, tx3, ha, hu, hb, hp, hl, ht, hupd1, hupd2⟩ := withdrawWith_ok hr
      have h2 : NonNeg tx3 := updateWalletBalance_nonneg hupd1 h (le_of_lt ha)
      exact updateWalletBalance_nonneg hupd2 h2 (le_of_lt ha)
  | transfer fu tu a =>
    simp only [exec]
    rcases hr : transferWith f db fu tu a with ⟨db', l, out⟩
    cases out with
    | error e => exact (transferWith_rollback hr) ▸ h
    | ok t =>
      obtain ⟨fw, tw, tx3, ha, hfw, hb, htw, hl, ht, hupd1, hupd2⟩ := transferWith_ok hr
      have h2 : NonNeg tx3 := updateWalletBalance_nonneg hupd1 h (le_of_lt ha)
      exact updateWalletBalance_nonneg hupd2 h2 (le_of_lt ha)

/-! ### Concrete states used by the witnesses -/

/-- A small concrete state: one user wallet and the two seeded provider
wallets of migrations/dml. -/
def dbW : DB :=
  ⟨[⟨1, "A", .user, 100, .active⟩,
    ⟨2, "deposit-provider-master", .provider, 1000, .active⟩,
    ⟨3, "withdraw-provider-master", .provider, 0, .active⟩], [], 1⟩

/-! ### Claim theorems -/

/-- C1: starting from non-negative balances, every sequence of committed
Deposit, Withdraw and Transfer operations keeps every wallet balance
non-negative; moreover a debit that would drive the locked row's balance
below zero is rejected with InsufficientFunds inside the atomic unit. -/
theorem balances_nonneg_invariant :
    (∀ (ops : List (Op × FaultSpec)) (db : DB), NonNeg db → NonNeg (execSeq ops db)) ∧
    (∀ (db : DB) (wid : Nat) (a : Int) (w : Wallet),
      db.wallets.find? (fun x => x.id == wid) = some w → w.balance - a < 0 →
      updateWalletBalance false db wid a false = .error .insufficientFunds) := by
  constructor
  · intro ops
    induction ops with
    | nil => intro db h; exact h
    | cons hd tl ih =>
      obtain ⟨op, f⟩ := hd
      intro db h
      exact ih _ (nonNeg_exec op f h)
  · intro db wid a w hfind hneg
    simp only [updateWalletBalance, hfind]
    have hft : ¬(false = true) := by simp
    rw [if_neg hft, if_neg hft, if_pos hneg]

theorem balances_nonneg_invariant_witness :
    (NonNeg dbW ∧
      NonNeg (execSeq [(.deposit "A" 50 none, noFaults), (.withdraw "A" 120 none, noFaults),
        (.transfer "A" "A" 10, noFaults), (.withdraw "A" 1000 none, noFaults)] dbW)) ∧
    (dbW.wallets.find? (fun x => x.id == 1) = some ⟨1, "A", .user, 100, .active⟩ ∧
      (100 : Int) - 200 < 0 ∧
      updateWalletBalance false dbW 1 200 false = .error .insufficientFunds) :=
  ⟨⟨by decide, balances_nonneg_invariant.1 _ dbW (by decide)⟩,
   ⟨by decide, by decide,
    balances_nonneg_invariant.2 dbW 1 200 ⟨1, "A", .user, 100, .active⟩ (by decide) (by decide)⟩⟩

/-- C3: an operation that fails for any reason (invalid amount, missing
wallet, missing provider, insufficient funds, or an injected storage
failure at any step of the atomic unit) leaves the database unchanged:
no new entries and no balance change. -/
theorem failed_op_rolls_back (op : Op) (f : FaultSpec) (db db' : DB) (l : List Nat) (e : Err)
    (h : exec op f db = ⟨db', l, .error e⟩) : db' = db := by
  cases op with
  | deposit u a p => exact depositWith_rollback h
  | withdraw u a p => exact withdrawWith_rollback h
  | transfer fu tu a => exact transferWith_rollback h

theorem failed_op_rolls_back_witness :
    exec (.deposit "A" 50 none) ⟨false, false, false, false, false, true⟩ dbW =
      ⟨dbW, [2, 1], .error .persistence⟩ ∧
    dbW = dbW :=
  ⟨by decide,
   failed_op_rolls_back (.deposit "A" 50 none) ⟨false, false, false, false, false, true⟩
     dbW dbW [2, 1] .persistence (by decide)⟩

/-- C5: withdrawing an amount larger than the wallet's current balance
fails with InsufficientFunds and changes nothing: same state, no lock
taken, no entries. -/
theorem withdraw_insufficient_funds (f : FaultSpec) (db : DB) (u : String) (a : Int)
    (p : Option String) (w : Wallet) (hw : findByUserID db u = .ok w)
    (hnn : 0 ≤ w.balance) (hlt : w.balance < a) :
    withdrawWith f db u a p = ⟨db, [], .error .insufficientFunds⟩ := by
  have ha : ¬(a ≤ 0) := by omega
  simp only [withdrawWith, hw, if_neg ha]
  rw [if_pos hlt]

theorem withdraw_insufficient_funds_witness :
    findByUserID dbW "A" = .ok ⟨1, "A", .user, 100, .active⟩ ∧
    (0 : Int) ≤ 100 ∧ (100 : Int) < 6000 ∧
    withdrawWith noFaults dbW "A" 6000 none = ⟨dbW, [], .error .insufficientFunds⟩ :=
  ⟨by decide, by decide, by decide,
   withdraw_insufficient_funds noFaults dbW "A" 6000 none ⟨1, "A", .user, 100, .active⟩
     (by decide) (by decide) (by decide)⟩

/-- C7: an absent providerId defaults to deposit-provider-master for
Deposit and to withdraw-provider-master for Withdraw; the call without a
provider behaves exactly like the call with the corresponding well-known
identifier supplied. -/
theorem default_provider_ids (f : FaultSpec) (db : DB) (u : String) (a : Int) :
    depositWith f db u a none = depositWith f db u a (some "deposit-provider-master") ∧
    withdrawWith f db u a none = withdrawWith f db u a (some "withdraw-provider-master") :=
  ⟨rfl, rfl⟩

/-- C10: the target wallet's insufficient-balance check runs before the
counterparty lookup: an underfunded Withdraw fails InsufficientFunds even
when the named provider wallet does not exist, and an underfunded Transfer
fails InsufficientFunds even when the receiver does not exist. -/
theorem balance_check_precedes_lookup :
    (∀ (f : FaultSpec) (db : DB) (u : String) (a : Int) (p : Option String) (w : Wallet),
      findByUserID db u = .ok w → 0 ≤ w.balance → w.balance < a →
      findProviderWallet db (p.getD "withdraw-provider-master") = .error .notFound →
      withdrawWith f db u a p = ⟨db, [], .error .insufficientFunds⟩) ∧
    (∀ (f : FaultSpec) (db : DB) (fu tu : String) (a : Int) (w : Wallet),
      findByUserID db fu = .ok w → 0 ≤ w.balance → w.balance < a →
      findByUserID db tu = .error .notFound →
      transferWith f db fu tu a = ⟨db, [], .error .insufficientFunds⟩) := by
  constructor
  · intro f db u a p w hw hnn hlt _
    have ha : ¬(a ≤ 0) := by omega
    simp only [withdrawWith, hw, if_neg ha]
    rw [if_pos hlt]
  · intro f db fu tu a w hw hnn hlt _
    have ha : ¬(a ≤ 0) := by omega
    simp only [transferWith, hw, if_neg ha]
    rw [if_pos hlt]

/-- A state with one underfunded user wallet and no provider and no
receiver wallet, exercising the precedence of the balance check. -/
def dbP : DB := ⟨[⟨1, "A", .user, 10, .active⟩], [], 1⟩

theorem balance_check_precedes_lookup_witness :
    (findByUserID dbP "A" = .ok ⟨1, "A", .user, 10, .active⟩ ∧
      findProviderWallet dbP "withdraw-provider-master" = .error .notFound ∧
      withdrawWith noFaults dbP "A" 50 none = ⟨dbP, [], .error .insufficientFunds⟩) ∧
    (findByUserID dbP "B" = .error .notFound ∧
      transferWith noFaults dbP "A" "B" 50 = ⟨dbP, [], .error .insufficientFunds⟩) :=
  ⟨⟨by decide, by decide,
    balance_check_precedes_lookup.1 noFaults dbP "A" 50 none ⟨1, "A", .user, 10, .active⟩
      (by decide) (by decide) (by decide) (by decide)⟩,
   ⟨by decide,
    balance_check_precedes_lookup.2 noFaults dbP "A" "B" 50 ⟨1, "A", .user, 10, .active⟩
      (by decide) (by decide) (by decide) (by decide)⟩⟩

/-- C2: every committed Deposit, Withdraw or Transfer appends exactly two
entries with the same positive amount, opposite operation types (a debit
and a credit), and swapped subject/object wallet ids, and the total of
all wallet balances is preserved (the net effect of the pair is zero). -/
theorem double_entry_pair (op : Op) (f : FaultSpec) (db db' : DB) (l : List Nat)
    (t : Transaction) (hnd : WFids db) (h : exec op f db = ⟨db', l, .ok t⟩) :
    ∃ d c, db'.transactions = db.transactions ++ [d, c] ∧
      d.amount = c.amount ∧ 0 < d.amount ∧
      d.operationType = .debit ∧ c.operationType = .credit ∧
      d.subjectWalletId = c.objectWalletId ∧ d.objectWalletId = c.subjectWalletId ∧
      balSum db'.wallets = balSum db.wallets := by
  cases op with
  | deposit u a p =>
    obtain ⟨uw, pw, tx3, ha, hu, hp, hl, ht, hupd1, hupd2⟩ := depositWith_ok h
    have h1 := updateWalletBalance_ok_balSum hupd1 hnd
    have h2 := updateWalletBalance_ok_balSum hupd2 (h1.2.2.1.symm ▸ hnd)
    refine ⟨⟨db.nextTxnId, pw.userId, uw.userId, .deposit, .debit, a, .completed, db.nextTxnId⟩,
      ⟨db.nextTxnId + 1, uw.userId, pw.userId, .deposit, .credit, a, .completed,
        db.nextTxnId + 1⟩,
      h2.1.trans h1.1, rfl, ha, rfl, rfl, rfl, rfl, ?_⟩
    have e1 := h1.2.2.2
    have e2 := h2.2.2.2
    simp at e1 e2
    linarith [e1, e2]
  | withdraw u a p =>
    obtain ⟨uw, pw, tx3, ha, hu, hb, hp, hl, ht, hupd1, hupd2⟩ := withdrawWith_ok h
    have h1 := updateWalletBalance_ok_balSum hupd1 hnd
    have h2 := updateWalletBalance_ok_balSum hupd2 (h1.2.2.1.symm ▸ hnd)
    refine ⟨⟨db.nextTxnId, uw.userId, pw.userId, .withdraw, .debit, a, .completed, db.nextTxnId⟩,
      ⟨db.nextTxnId + 1, pw.userId, uw.userId, .withdraw, .credit, a, .completed,
        db.nextTxnId + 1⟩,
      h2.1.trans h1.1, rfl, ha, rfl, rfl, rfl, rfl, ?_⟩
    have e1 := h1.2.2.2
    have e2 := h2.2.2.2
    simp at e1 e2
    linarith [e1, e2]
  | transfer fu tu a =>
    obtain ⟨fw, tw, tx3, ha, hfw, hb, htw, hl, ht, hupd1, hupd2⟩ := transferWith_ok h
    have h1 := updateWalletBalance_ok_balSum hupd1 hnd
    have h2 := updateWalletBalance_ok_balSum hupd2 (h1.2.2.1.symm ▸ hnd)
    refine ⟨⟨db.nextTxnId, fw.userId, tw.userId, .transfer, .debit, a, .completed, db.nextTxnId⟩,
      ⟨db.nextTxnId + 1, tw.userId, fw.userId, .transfer, .credit, a, .completed,
        db.nextTxnId + 1⟩,
      h2.1.trans h1.1, rfl, ha, rfl, rfl, rfl, rfl, ?_⟩
    have e1 := h1.2.2.2
    have e2 := h2.2.2.2
    simp at e1 e2
    linarith [e1, e2]

/-- The committed state reached by the double-entry witness transfer. -/
def dbW2 : DB :=
  ⟨[⟨1, "A", .user, 60, .active⟩,
    ⟨2, "deposit-provider-master", .provider, 1040, .active⟩,
    ⟨3, "withdraw-provider-master", .provider, 0, .active⟩],
   [⟨1, "A", "deposit-provider-master", .transfer, .debit, 40, .completed, 1⟩,
    ⟨2, "deposit-provider-master", "A", .transfer, .credit, 40, .completed, 2⟩], 3⟩

theorem double_entry_pair_witness :
    WFids dbW ∧
    exec (.transfer "A" "deposit-provider-master" 40) noFaults dbW =
      ⟨dbW2, [1, 2],
       .ok ⟨1, "A", "deposit-provider-master", .transfer, .debit, 40, .completed, 1⟩⟩ ∧
    (∃ d c, dbW2.transactions = dbW.transactions ++ [d, c] ∧
      d.amount = c.amount ∧ 0 < d.amount ∧
      d.operationType = .debit ∧ c.operationType = .credit ∧
      d.subjectWalletId = c.objectWalletId ∧ d.objectWalletId = c.subjectWalletId ∧
      balSum dbW2.wallets = balSum dbW.wallets) :=
  ⟨by decide, by decide,
   double_entry_pair (.transfer "A" "deposit-provider-master" 40) noFaults dbW dbW2 [1, 2]
     ⟨1, "A", "deposit-provider-master", .transfer, .debit, 40, .completed, 1⟩
     (by decide) (by decide)⟩

/-- A two-user state whose transfer sender has the larger primary key. -/
def dbC9 : DB := ⟨[⟨1, "A", .user, 100, .active⟩, ⟨2, "B", .user, 100, .active⟩], [], 1⟩

/-- C9 counterexample: Transfer from B to A requests its two row locks in
call-argument order [2, 1], which is not ascending identifier order, so
lock acquisition is not deterministically ordered across the two
directions of the same wallet pair. -/
theorem transfer_lock_order_counterexample :
    (transferWith noFaults dbC9 "B" "A" 5).locks = [2, 1] ∧
    ¬ List.Sorted (fun x y => x ≤ y) (transferWith noFaults dbC9 "B" "A" 5).locks := by
  constructor
  · rfl
  · intro hs
    have hs2 : List.Sorted (fun x y => x ≤ y) [2, 1] := hs
    have h21 := (List.sorted_cons.mp hs2).1 1 (by simp)
    omega

/-- C9 amended: each operation acquires its wallet row locks in
call-argument order, not in a canonical sorted order: Transfer locks the
sender's row then the receiver's row, Deposit locks the provider's row
then the target's row, and Withdraw locks the target's row then the
provider's row. -/
theorem locks_in_call_argument_order :
    (∀ (f : FaultSpec) (db : DB) (fu tu : String) (a : Int) (db' : DB) (l : List Nat)
        (t : Transaction), transferWith f db fu tu a = ⟨db', l, .ok t⟩ →
      ∃ fw tw, findByUserID db fu = .ok fw ∧ findByUserID db tu = .ok tw ∧
        l = [fw.id, tw.id]) ∧
    (∀ (f : FaultSpec) (db : DB) (u : String) (a : Int) (p : Option String) (db' : DB)
        (l : List Nat) (t : Transaction), depositWith f db u a p = ⟨db', l, .ok t⟩ →
      ∃ uw pw, findByUserID db u = .ok uw ∧
        findProviderWallet db (p.getD "deposit-provider-master") = .ok pw ∧
        l = [pw.id, uw.id]) ∧
    (∀ (f : FaultSpec) (db : DB) (u : String) (a : Int) (p : Option String) (db' : DB)
        (l : List Nat) (t : Transaction), withdrawWith f db u a p = ⟨db', l, .ok t⟩ →
      ∃ uw pw, findByUserID db u = .ok uw ∧
        findProviderWallet db (p.getD "withdraw-provider-master") = .ok pw ∧
        l = [uw.id, pw.id]) := by
  refine ⟨?_, ?_, ?_⟩
  · intro f db fu tu a db' l t h
    obtain ⟨fw, tw, tx3, ha, hfw, hb, htw, hl, ht, hupd1, hupd2⟩ := transferWith_ok h
    exact ⟨fw, tw, hfw, htw, hl⟩
  · intro f db u a p db' l t h
    obtain ⟨uw, pw, tx3, ha, hu, hp, hl, ht, hupd1, hupd2⟩ := depositWith_ok h
    exact ⟨uw, pw, hu, hp, hl⟩
  · intro f db u a p db' l t h
    obtain ⟨uw, pw, tx3, ha, hu, hb, hp, hl, ht, hupd1, hupd2⟩ := withdrawWith_ok h
    exact ⟨uw, pw, hu, hp, hl⟩

/-- The committed state reached by the lock-order witness transfer. -/
def dbC9res : DB :=
  ⟨[⟨1, "A", .user, 105, .active⟩, ⟨2, "B", .user, 95, .active⟩],
   [⟨1, "B", "A", .transfer, .debit, 5, .completed, 1⟩,
    ⟨2, "A", "B", .transfer, .credit, 5, .completed, 2⟩], 3⟩

theorem locks_in_call_argument_order_witness :
    transferWith noFaults dbC9 "B" "A" 5 =
      ⟨dbC9res, [2, 1], .ok ⟨1, "B", "A", .transfer, .debit, 5, .completed, 1⟩⟩ ∧
    (∃ fw tw, findByUserID dbC9 "B" = .ok fw ∧ findByUserID dbC9 "A" = .ok tw ∧
      [2, 1] = [fw.id, tw.id]) :=
  ⟨by decide,
   locks_in_call_argument_order.1 noFaults dbC9 "B" "A" 5 dbC9res [2, 1]
     ⟨1, "B", "A", .transfer, .debit, 5, .completed, 1⟩ (by decide)⟩

/-- A single-wallet state for the self-transfer counterexample. -/
def dbC4 : DB := ⟨[⟨1, "A", .user, 100, .active⟩], [], 1⟩

/-- C4 counterexample: the ledger engine does not reject a self-transfer:
Transfer(A, A, 5) on a wallet with balance 100 commits, posting two new
entries with subject and object both A, and returns the debit entry; the
balance is unchanged but the operation does not fail. -/
theorem self_transfer_commits_counterexample :
    transferWith noFaults dbC4 "A" "A" 5 =
      ⟨⟨[⟨1, "A", .user, 100, .active⟩],
        [⟨1, "A", "A", .transfer, .debit, 5, .completed, 1⟩,
         ⟨2, "A", "A", .transfer, .credit, 5, .completed, 2⟩], 3⟩,
       [1, 1],
       .ok ⟨1, "A", "A", .transfer, .debit, 5, .completed, 1⟩⟩ := by decide

/-- C4 amended: the self-transfer guard lives in the HTTP controller, not
the engine: the controller rejects a transfer whose sender equals its
receiver before the service runs, leaving the state unchanged, while the
engine itself commits such a request whenever the balance suffices,
posting two entries and leaving every wallet row (hence the balance)
unchanged. -/
theorem self_transfer_guard_and_engine :
    (∀ (db : DB) (u : String) (a : Int),
      controllerTransfer db u u a = ⟨db, [], .error .selfTransfer⟩) ∧
    (∀ (f : FaultSpec) (db : DB) (u : String) (a : Int) (db' : DB) (l : List Nat)
        (t : Transaction), WFids db → transferWith f db u u a = ⟨db', l, .ok t⟩ →
      db'.wallets = db.wallets ∧
      db'.transactions.length = db.transactions.length + 2) := by
  constructor
  · intro db u a
    simp [controllerTransfer]
  · intro f db u a db' l t hnd h
    obtain ⟨fw, tw, tx3, ha, hfw, hb, htw, hl, ht, hupd1, hupd2⟩ := transferWith_ok h
    have hft : fw = tw := Except.ok.inj (hfw.symm.trans htw)
    subst hft
    obtain ⟨w1, hfind1, hid1, htx3, hnb1⟩ := updateWalletBalance_ok hupd1
    obtain ⟨w2, hfind2, hid2, hdb', hnb2⟩ := updateWalletBalance_ok hupd2
    have hmem := (findByUserID_ok hfw).1
    have hfindfw : db.wallets.find? (fun x => x.id == fw.id) = some fw :=
      find?_eq_of_mem_nodup hmem hnd
    have hfind1' : db.wallets.find? (fun x => x.id == fw.id) = some w1 := hfind1
    have hw1 : fw = w1 := Option.some.inj (hfindfw.symm.trans hfind1')
    subst hw1
    have htx3' : tx3.wallets =
        db.wallets.map (fun x => if x.id == fw.id then
          { fw with balance := fw.balance - a } else x) := by
      rw [htx3]
      rfl
    have hfind2' : (db.wallets.map (fun x => if x.id == fw.id then
        { fw with balance := fw.balance - a } else x)).find? (fun x => x.id == fw.id) =
        some w2 := by
      rw [← htx3']
      exact hfind2
    have hsaveself :=
      find?_save_self { fw with balance := fw.balance - a } hfindfw
    have hw2 : w2 = { fw with balance := fw.balance - a } :=
      Option.some.inj (hfind2'.symm.trans hsaveself)
    subst hw2
    have hv : ({ fw with balance := fw.balance - a + a } : Wallet) = fw := by
      cases fw
      simp
    constructor
    · have hdbw : db'.wallets =
          (db.wallets.map (fun x => if x.id == fw.id then
            { fw with balance := fw.balance - a } else x)).map
            (fun x => if x.id == fw.id then fw else x) := by
        rw [hdb', ← htx3']
        show tx3.wallets.map (fun x =>
          if x.id == ({ fw with balance := fw.balance - a + a } : Wallet).id then
            { fw with balance := fw.balance - a + a } else x) = _
        rw [hv]
      rw [hdbw, List.map_map]
      refine (List.map_congr_left fun x hx => ?_).trans (List.map_id _)
      by_cases hxe : x.id = fw.id
      · have h2x := find?_eq_of_mem_nodup hx hnd
        rw [hxe] at h2x
        have hxf : x = fw := Option.some.inj (h2x.symm.trans hfindfw)
        simp only [Function.comp_apply]
        rw [hxf]
        simp
      · simp only [Function.comp_apply]
        simp [hxe]
    · have h1 : db'.transactions = tx3.transactions := by rw [hdb']; rfl
      have h2 : tx3.transactions =
          db.transactions ++
            [⟨db.nextTxnId, fw.userId, fw.userId, .transfer, .debit, a, .completed,
               db.nextTxnId⟩,
             ⟨db.nextTxnId + 1, fw.userId, fw.userId, .transfer, .credit, a, .completed,
               db.nextTxnId + 1⟩] := by
        rw [htx3]
        rfl
      rw [h1, h2]
      simp

/-- Committed state of the engine-level self-transfer in the witness. -/
def dbC4res : DB :=
  ⟨[⟨1, "A", .user, 100, .active⟩],
   [⟨1, "A", "A", .transfer, .debit, 5, .completed, 1⟩,
    ⟨2, "A", "A", .transfer, .credit, 5, .completed, 2⟩], 3⟩

theorem self_transfer_guard_and_engine_witness :
    controllerTransfer dbC4 "A" "A" 5 = ⟨dbC4, [], .error .selfTransfer⟩ ∧
    (WFids dbC4 ∧
      transferWith noFaults dbC4 "A" "A" 5 =
        ⟨dbC4res, [1, 1], .ok ⟨1, "A", "A", .transfer, .debit, 5, .completed, 1⟩⟩ ∧
      (dbC4res.wallets = dbC4.wallets ∧
        dbC4res.transactions.length = dbC4.transactions.length + 2)) :=
  ⟨self_transfer_guard_and_engine.1 dbC4 "A" 5,
   by decide, by decide,
   self_transfer_guard_and_engine.2 noFaults dbC4 "A" 5 dbC4res [1, 1]
     ⟨1, "A", "A", .transfer, .debit, 5, .completed, 1⟩ (by decide) (by decide)⟩

/-- C8: GetWalletWithTransactions is read-only (the state component of its
result is the input state), fails NotFound when the wallet is absent, and
otherwise returns the wallet found for the user id together with exactly
the entries whose subjectWalletId equals the wallet's user id, ordered
newest first (descending creation time). -/
theorem get_wallet_with_transactions_spec (db : DB) (u : String) :
    (getWalletWithTransactions db u).1 = db ∧
    (findByUserID db u = .error .notFound →
      (getWalletWithTransactions db u).2 = .error .notFound) ∧
    (∀ w ts, (getWalletWithTransactions db u).2 = .ok (w, ts) →
      findByUserID db u = .ok w ∧ w.userId = u ∧
      ts.Perm (db.transactions.filter (fun x => x.subjectWalletId == w.userId)) ∧
      List.Sorted (fun x y => y ≤ x) (ts.map (fun x => x.createdAt))) := by
  refine ⟨?_, ?_, ?_⟩
  · unfold getWalletWithTransactions
    split
    · rfl
    · rfl
  · intro he
    unfold getWalletWithTransactions
    rw [he]
  · intro w ts hok
    unfold getWalletWithTransactions at hok
    split at hok
    · exact Except.noConfusion hok
    · rename_i x w' hw'
      have hpair : (w', findAllTransactionsBySubject db w'.userId) = (w, ts) :=
        Except.ok.inj hok
      have hw : w' = w := congrArg Prod.fst hpair
      subst hw
      have hts : findAllTransactionsBySubject db w'.userId = ts := congrArg Prod.snd hpair
      refine ⟨hw', (findByUserID_ok hw').2, ?_, ?_⟩
      · rw [← hts]
        exact List.perm_insertionSort newestFirst _
      · rw [← hts]
        show List.Pairwise _ _
        rw [List.pairwise_map]
        exact List.sorted_insertionSort newestFirst
          (db.transactions.filter (fun x => x.subjectWalletId == w'.userId))

/-- A state with one wallet and three entries, two of them recorded
against the wallet. -/
def dbW8 : DB :=
  ⟨[⟨1, "A", .user, 100, .active⟩],
   [⟨1, "A", "B", .transfer, .debit, 5, .completed, 1⟩,
    ⟨2, "B", "A", .transfer, .credit, 5, .completed, 2⟩,
    ⟨3, "A", "deposit-provider-master", .deposit, .credit, 7, .completed, 3⟩], 4⟩

/-- The wallet and entry list the witness read path returns. -/
def w8 : Wallet := ⟨1, "A", .user, 100, .active⟩

/-- The entries of dbW8 recorded against wallet A, newest first. -/
def ts8 : List Transaction :=
  [⟨3, "A", "deposit-provider-master", .deposit, .credit, 7, .completed, 3⟩,
   ⟨1, "A", "B", .transfer, .debit, 5, .completed, 1⟩]

theorem get_wallet_with_transactions_spec_witness :
    (getWalletWithTransactions dbW8 "A").2 = .ok (w8, ts8) ∧
    (findByUserID dbW8 "A" = .ok w8 ∧ w8.userId = "A" ∧
      ts8.Perm (dbW8.transactions.filter (fun x => x.subjectWalletId == w8.userId)) ∧
      List.Sorted (fun x y => y ≤ x) (ts8.map (fun x => x.createdAt))) :=
  ⟨by decide, (get_wallet_with_transactions_spec dbW8 "A").2.2 w8 ts8 (by decide)⟩

/-- A state where the deposit target is the provider wallet itself. -/
def dbC6 : DB := ⟨[⟨1, "deposit-provider-master", .provider, 1000, .active⟩], [], 1⟩

/-- C6 counterexample: a deposit whose target wallet is the provider
wallet itself: every precondition of the claim holds (the target exists,
the provider exists with provider type, the provider balance covers the
amount), yet the operation commits with the target balance left at 1000
rather than increased by 5, and the provider balance not decreased. -/
theorem deposit_into_provider_counterexample :
    findByUserID dbC6 "deposit-provider-master" =
      .ok ⟨1, "deposit-provider-master", .provider, 1000, .active⟩ ∧
    findProviderWallet dbC6 "deposit-provider-master" =
      .ok ⟨1, "deposit-provider-master", .provider, 1000, .active⟩ ∧
    depositWith noFaults dbC6 "deposit-provider-master" 5 (some "deposit-provider-master") =
      ⟨⟨[⟨1, "deposit-provider-master", .provider, 1000, .active⟩],
        [⟨1, "deposit-provider-master", "deposit-provider-master", .deposit, .debit, 5,
           .completed, 1⟩,
         ⟨2, "deposit-provider-master", "deposit-provider-master", .deposit, .credit, 5,
           .completed, 2⟩], 3⟩,
       [1, 1],
       .ok ⟨2, "deposit-provider-master", "deposit-provider-master", .deposit, .credit, 5,
         .completed, 2⟩⟩ :=
  ⟨by decide, by decide, by decide⟩

/-- C6 amended: for a deposit whose target wallet row is distinct from the
provider wallet row, with a positive amount, an existing target, an
existing provider of provider type, and a provider balance covering the
amount, the commit decreases the provider balance by the amount,
increases the target balance by the amount, leaves every other row
unchanged, appends a debit entry against the provider and a credit entry
against the target, and returns the credit entry; a provider balance
below the amount fails InsufficientFunds with no state change; an absent
target fails NotFound; an absent provider fails with the
deposit-provider-not-found error. -/
theorem deposit_effect :
    (∀ (db : DB) (u pid : String) (a : Int) (uw pw : Wallet),
      WFids db → 0 < a →
      findByUserID db u = .ok uw →
      findProviderWallet db pid = .ok pw →
      uw.id ≠ pw.id → a ≤ pw.balance →
      depositWith noFaults db u a (some pid) =
        ⟨⟨db.wallets.map (fun x =>
            if x.id == pw.id then { pw with balance := pw.balance - a }
            else if x.id == uw.id then { uw with balance := uw.balance + a } else x),
          db.transactions ++
            [⟨db.nextTxnId, pw.userId, uw.userId, .deposit, .debit, a, .completed,
               db.nextTxnId⟩,
             ⟨db.nextTxnId + 1, uw.userId, pw.userId, .deposit, .credit, a, .completed,
               db.nextTxnId + 1⟩],
          db.nextTxnId + 2⟩,
         [pw.id, uw.id],
         .ok ⟨db.nextTxnId + 1, uw.userId, pw.userId, .deposit, .credit, a, .completed,
           db.nextTxnId + 1⟩⟩) ∧
    (∀ (db : DB) (u pid : String) (a : Int) (uw pw : Wallet),
      WFids db → 0 < a →
      findByUserID db u = .ok uw →
      findProviderWallet db pid = .ok pw →
      pw.balance < a →
      depositWith noFaults db u a (some pid) = ⟨db, [pw.id], .error .insufficientFunds⟩) ∧
    (∀ (db : DB) (u pid : String) (a : Int),
      0 < a → findByUserID db u = .error .notFound →
      depositWith noFaults db u a (some pid) = ⟨db, [], .error .notFound⟩) ∧
    (∀ (db : DB) (u pid : String) (a : Int) (uw : Wallet),
      0 < a → findByUserID db u = .ok uw →
      findProviderWallet db pid = .error .notFound →
      depositWith noFaults db u a (some pid) = ⟨db, [], .error .depositProviderNotFound⟩) := by
  refine ⟨?_, ?_, ?_, ?_⟩
  · intro db u pid a uw pw hnd ha hu hp hne hbal
    have ha' : ¬(a ≤ 0) := by omega
    have hfindp : db.wallets.find? (fun x => x.id == pw.id) = some pw :=
      find?_eq_of_mem_nodup (findProviderWallet_ok hp).1 hnd
    have hfindu : db.wallets.find? (fun x => x.id == uw.id) = some uw :=
      find?_eq_of_mem_nodup (findByUserID_ok hu).1 hnd
    have hnn : ¬(pw.balance - a < 0) := by omega
    have e1 : updateWalletBalance false
        ⟨db.wallets,
          db.transactions ++
            [⟨db.nextTxnId, pw.userId, uw.userId, .deposit, .debit, a, .completed,
               db.nextTxnId⟩] ++
            [⟨db.nextTxnId + 1, uw.userId, pw.userId, .deposit, .credit, a, .completed,
               db.nextTxnId + 1⟩],
          db.nextTxnId + 1 + 1⟩ pw.id a false =
        .ok ⟨db.wallets.map (fun x =>
            if x.id == pw.id then { pw with balance := pw.balance - a } else x),
          db.transactions ++
            [⟨db.nextTxnId, pw.userId, uw.userId, .deposit, .debit, a, .completed,
               db.nextTxnId⟩] ++
            [⟨db.nextTxnId + 1, uw.userId, pw.userId, .deposit, .credit, a, .completed,
               db.nextTxnId + 1⟩],
          db.nextTxnId + 1 + 1⟩ := by
      simp only [updateWalletBalance, hfindp]
      rw [if_neg hnn]
      rfl
    have hpne : ({ pw with balance := pw.balance - a } : Wallet).id ≠ uw.id :=
      fun hEq => hne hEq.symm
    have hfindu2 : (db.wallets.map (fun x =>
        if x.id == pw.id then { pw with balance := pw.balance - a } else x)).find?
        (fun x => x.id == uw.id) = some uw := by
      rw [show (fun x : Wallet => if x.id == pw.id then
          { pw with balance := pw.balance - a } else x) = (fun x : Wallet =>
          if x.id == ({ pw with balance := pw.balance - a } : Wallet).id then
          { pw with balance := pw.balance - a } else x) from rfl,
        find?_save_preserved hpne]
      exact hfindu
    have e2 : updateWalletBalance false
        ⟨db.wallets.map (fun x =>
            if x.id == pw.id then { pw with balance := pw.balance - a } else x),
          db.transactions ++
            [⟨db.nextTxnId, pw.userId, uw.userId, .deposit, .debit, a, .completed,
               db.nextTxnId⟩] ++
            [⟨db.nextTxnId + 1, uw.userId, pw.userId, .deposit, .credit, a, .completed,
               db.nextTxnId + 1⟩],
          db.nextTxnId + 1 + 1⟩ uw.id a true =
        .ok ⟨db.wallets.map (fun x =>
            if x.id == pw.id then { pw with balance := pw.balance - a }
            else if x.id == uw.id then { uw with balance := uw.balance + a } else x),
          db.transactions ++
            [⟨db.nextTxnId, pw.userId, uw.userId, .deposit, .debit, a, .completed,
               db.nextTxnId⟩] ++
            [⟨db.nextTxnId + 1, uw.userId, pw.userId, .deposit, .credit, a, .completed,
               db.nextTxnId + 1⟩],
          db.nextTxnId + 1 + 1⟩ := by
      simp only [updateWalletBalance, hfindu2]
      rw [if_pos trivial]
      apply congrArg Except.ok
      show (⟨_, _, _⟩ : DB) = _
      rw [DB.mk.injEq]
      refine ⟨?_, rfl, rfl⟩
      show (db.wallets.map _).map _ = _
      rw [List.map_map]
      refine List.map_congr_left fun x hx => ?_
      simp only [Function.comp_apply]
      by_cases h1 : x.id = pw.id
      · simp [h1, show pw.id ≠ uw.id from fun hEq => hne hEq.symm]
      · by_cases h2 : x.id = uw.id
        · simp [h1, h2, hne]
        · simp [h1, h2]
    simp only [depositWith, insertTransaction, Option.getD_some, if_neg ha', hu, hp,
      noFaults, Bool.false_eq_true, if_false, e1, e2]
    simp only [List.append_assoc, List.singleton_append]
  · intro db u pid a uw pw hnd ha hu hp hlt
    have ha' : ¬(a ≤ 0) := by omega
    have hfindp : db.wallets.find? (fun x => x.id == pw.id) = some pw :=
      find?_eq_of_mem_nodup (findProviderWallet_ok hp).1 hnd
    simp only [depositWith, insertTransaction, Option.getD_some, if_neg ha', hu, hp,
      noFaults, Bool.false_eq_true, if_false, updateWalletBalance, hfindp,
      if_pos (show pw.balance - a < 0 by omega)]
  · intro db u pid a ha he
    have ha' : ¬(a ≤ 0) := by omega
    simp only [depositWith, if_neg ha', he]
  · intro db u pid a uw ha hu hp
    have ha' : ¬(a ≤ 0) := by omega
    simp only [depositWith, if_neg ha', hu, Option.getD_some, hp]

theorem deposit_effect_witness :
    (WFids dbW ∧ (0 : Int) < 20 ∧
      findByUserID dbW "A" = .ok ⟨1, "A", .user, 100, .active⟩ ∧
      findProviderWallet dbW "deposit-provider-master" =
        .ok ⟨2, "deposit-provider-master", .provider, 1000, .active⟩ ∧
      (⟨1, "A", .user, 100, .active⟩ : Wallet).id ≠
        (⟨2, "deposit-provider-master", .provider, 1000, .active⟩ : Wallet).id ∧
      (20 : Int) ≤ (⟨2, "deposit-provider-master", .provider, 1000, .active⟩ :
        Wallet).balance) ∧
    depositWith noFaults dbW "A" 20 (some "deposit-provider-master") =
      ⟨⟨[⟨1, "A", .user, 120, .active⟩,
         ⟨2, "deposit-provider-master", .provider, 980, .active⟩,
         ⟨3, "withdraw-provider-master", .provider, 0, .active⟩],
        [⟨1, "deposit-provider-master", "A", .deposit, .debit, 20, .completed, 1⟩,
         ⟨2, "A", "deposit-provider-master", .deposit, .credit, 20, .completed, 2⟩], 3⟩,
       [2, 1],
       .ok ⟨2, "A", "deposit-provider-master", .deposit, .credit, 20, .completed, 2⟩⟩ :=
  ⟨⟨by decide, by decide, by decide, by decide, by decide, by decide⟩,
   deposit_effect.1 dbW "A" "deposit-provider-master" 20
     ⟨1, "A", .user, 100, .active⟩ ⟨2, "deposit-provider-master", .provider, 1000, .active⟩
     (by decide) (by decide) (by decide) (by decide) (by decide) (by decide)⟩

end DigitalWallet
